import Mathlib

/-!
Shallow embedding of `seller.py`, a script that synchronizes stock levels
and prices between a supplier feed and a marketplace seller API.

Modelling conventions:
- Python dict rows from the supplier spreadsheet are modelled by the
  structure `WatchRow`; the field `code` embeds the key "Код", `quantity`
  embeds "Количество" and `price` embeds "Цена" (all read as strings,
  matching the `str(...)` casts in the source).
- Python exceptions are modelled by `Except PyExc`; a function that can
  raise returns `Except` or `Option`.
- The stateful mutation of the caller-supplied `offer_ids` list inside
  `create_stocks` is modelled by explicit state passing: the function
  returns the produced list together with the mutated `offer_ids`.
- Python `int(...)` applied to a decimal string is modelled by `pyInt`
  (whitespace stripping, optional sign, all-digit body).
- The paginated while-loop of `get_offer_ids` is modelled with explicit
  fuel; `none` means the loop did not finish within the given fuel.
-/

/-- One exception kind distinguished by the top level of the script. -/
inductive PyExc where
  | readTimeout
  | connectionError
  | httpError
  | envError
  | valueError
  | other
deriving DecidableEq, Repr

/-- A supplier spreadsheet row; fields embed the dict keys "Код",
"Количество" and "Цена" of the source, after the `str(...)` casts. -/
structure WatchRow where
  code : String
  quantity : String
  price : String
deriving DecidableEq, Repr

/-- One element of the list built by `create_stocks`. -/
structure StockUpdate where
  offer_id : String
  stock : Int
deriving DecidableEq, Repr

/-- One element of the list built by `create_prices`. -/
structure PriceUpdate where
  auto_action_enabled : String
  currency_code : String
  offer_id : String
  old_price : String
  price : String
deriving DecidableEq, Repr

/-- Value of an all-digit character list, helper for `pyInt`. -/
def pyIntDigits (ds : List Char) : Option Nat :=
  if ds = [] then none
  else if ds.all Char.isDigit then
    some (ds.foldl (fun acc c => 10 * acc + (c.toNat - 48)) 0)
  else none

/-- Embeds Python `int(s)` on a decimal string: strip surrounding
whitespace, allow one optional sign, require a nonempty all-digit body;
`none` embeds the `ValueError` raised on any other input. -/
def pyInt (s : String) : Option Int :=
  let l := ((s.toList.dropWhile Char.isWhitespace).reverse.dropWhile
      Char.isWhitespace).reverse
  match l with
  | [] => none
  | c :: cs =>
    if c = ('+') then (pyIntDigits cs).map Int.ofNat
    else if c = ('-') then (pyIntDigits cs).map (fun n => -(Int.ofNat n))
    else (pyIntDigits (c :: cs)).map Int.ofNat

/-- Embeds the quantity branch of `create_stocks` (seller.py lines
212-218): the quantity string ">10" maps to 100, "1" maps to 0, any other
quantity goes through `int(...)`, whose `ValueError` is `none`. -/
def stock_of (watch : WatchRow) : Option Int :=
  if watch.quantity = ">10" then some 100
  else if watch.quantity = "1" then some 0
  else pyInt watch.quantity

/-- Embeds the first for-loop of `create_stocks` (seller.py lines 210-220):
rows whose code is a member of the current `offer_ids` emit one stock
update and erase that code from `offer_ids` (Python `list.remove`, first
occurrence); the stock value follows `stock_of`, whose failure (`none`)
aborts the whole call. Returns the emitted updates and the remaining
`offer_ids`. -/
def create_stocks_loop :
    List WatchRow → List String → Option (List StockUpdate × List String)
  | [], offer_ids => some ([], offer_ids)
  | watch :: rest, offer_ids =>
    if watch.code ∈ offer_ids then
      match stock_of watch with
      | none => none
      | some stock =>
        match create_stocks_loop rest (offer_ids.erase watch.code) with
        | none => none
        | some (stocks, remaining) =>
          some (⟨watch.code, stock⟩ :: stocks, remaining)
    else create_stocks_loop rest offer_ids

/-- Embeds `create_stocks` (seller.py lines 182-224): run the first loop,
then append a zero-stock update for every offer id still remaining
(lines 222-223). The second component is the final state of the
caller-supplied `offer_ids` list. -/
def create_stocks (watch_remnants : List WatchRow) (offer_ids : List String) :
    Option (List StockUpdate × List String) :=
  match create_stocks_loop watch_remnants offer_ids with
  | none => none
  | some (stocks, remaining) =>
    some (stocks ++ remaining.map (fun offer_id => ⟨offer_id, 0⟩), remaining)

/-- Embeds Python `s.split(sep)` for a one-character separator, used by
`price_conversion` with separator the dot. -/
def pySplit (sep : Char) : List Char → List (List Char)
  | [] => [[]]
  | c :: cs =>
    match pySplit sep cs with
    | [] => [[]]
    | h :: t => if c = sep then [] :: h :: t else (c :: h) :: t

/-- Embeds `price_conversion` (seller.py line 282):
`re.sub("[^0-9]", "", price.split(".")[0])`, i.e. take the piece before
the first dot and keep only the ASCII digits. -/
def price_conversion (price : String) : String :=
  String.mk (((pySplit ('.') price.toList).headD []).filter Char.isDigit)

/-- Embeds the loop of `create_prices` (seller.py lines 251-262) with the
`offer_ids` list threaded as explicit state: the source never mutates it,
so each step passes it through unchanged. Rows whose code is a member of
`offer_ids` emit one price update with the constant fields of the source
and the converted price. -/
def create_prices :
    List WatchRow → List String → List PriceUpdate × List String
  | [], offer_ids => ([], offer_ids)
  | watch :: rest, offer_ids =>
    if watch.code ∈ offer_ids then
      let p : PriceUpdate :=
        ⟨"UNKNOWN", "RUB", watch.code, "0", price_conversion watch.price⟩
      match create_prices rest offer_ids with
      | (prices, offer_ids2) => (p :: prices, offer_ids2)
    else create_prices rest offer_ids

/-- Restatement of the §4.3 spec sentence for `createPrices`, used for the
refinement theorem: filter the rows whose code appears in `offerIds`, map
each to the price-update record with the constant fields. -/
def create_prices_from_spec (rows : List WatchRow) (offer_ids : List String) :
    List PriceUpdate :=
  (rows.filter (fun w => w.code ∈ offer_ids)).map
    (fun w => ⟨"UNKNOWN", "RUB", w.code, "0", price_conversion w.price⟩)

/-- Embeds the generator body of `divide` (seller.py lines 303-304) for a
positive chunk size: slice off `lst[i : i + n]` at `i = 0, n, 2n, ...`. -/
def divide_go {α : Type} (n : Nat) (hn : 0 < n) : List α → List (List α)
  | [] => []
  | x :: xs => ((x :: xs).take n) :: divide_go n hn ((x :: xs).drop n)
termination_by l => l.length
decreasing_by simp [List.length_drop]; omega

/-- Embeds `divide` (seller.py lines 285-304): `range(0, len(lst), 0)`
raises `ValueError`, embedded as `none`; for a positive chunk size the
generator yields the contiguous slices in order. -/
def divide {α : Type} (lst : List α) (n : Nat) : Option (List (List α)) :=
  if h : 0 < n then some (divide_go n h lst) else none

/-- One product item of a listing page; only the `offer_id` field of the
dict is read by the source. -/
structure Product where
  offer_id : String
deriving DecidableEq, Repr

/-- The `result` object of one `/v2/product/list` response: `items`,
`total` and `last_id`, the three fields read by `get_offer_ids`. -/
structure Page where
  items : List Product
  total : Nat
  last_id : String

/-- An HTTP response as seen by the source after `requests.post`: the
status code and the parsed JSON payload of interest. -/
structure HttpResponse (α : Type) where
  status_code : Nat
  body : α

/-- Embeds `response.raise_for_status()` of the requests library: raise
`HTTPError` exactly when the status code is 4xx or 5xx. -/
def raise_for_status {α : Type} (r : HttpResponse α) : Except PyExc Unit :=
  if 400 ≤ r.status_code ∧ r.status_code < 600 then
    Except.error PyExc.httpError
  else Except.ok ()

/-- Embeds `get_product_list` (seller.py lines 46-49) applied to the
response of its POST: `raise_for_status`, then return
`response.json().get("result")`, here the body of type `Option Page`. -/
def get_product_list (response : HttpResponse (Option Page)) :
    Except PyExc (Option Page) :=
  match raise_for_status response with
  | Except.error e => Except.error e
  | Except.ok _ => Except.ok response.body

/-- Embeds `update_price` (seller.py lines 112-114) applied to the
response of its POST: `raise_for_status`, then return `response.json()`. -/
def update_price {β : Type} (response : HttpResponse β) : Except PyExc β :=
  match raise_for_status response with
  | Except.error e => Except.error e
  | Except.ok _ => Except.ok response.body

/-- Embeds `update_stocks` (seller.py lines 144-146) applied to the
response of its POST: `raise_for_status`, then return `response.json()`. -/
def update_stocks {β : Type} (response : HttpResponse β) : Except PyExc β :=
  match raise_for_status response with
  | Except.error e => Except.error e
  | Except.ok _ => Except.ok response.body

/-- The `last_id` value sent on the n-th call of the `get_offer_ids` loop
when the API is the pure function `api` (every call succeeds): the first
call sends the empty string, each later call sends the `last_id` of the
previous page. -/
def lastIdSeq (api : String → Page) : Nat → String
  | 0 => ""
  | n + 1 => (api (lastIdSeq api n)).last_id

/-- The `product_list` accumulated after n calls of the loop. -/
def accSeq (api : String → Page) : Nat → List Product
  | 0 => []
  | n + 1 => accSeq api n ++ (api (lastIdSeq api n)).items

/-- The break condition of the loop after the call of index n (0-based):
the `total` reported by that page equals the accumulated item count. -/
def stopAt (api : String → Page) (n : Nat) : Prop :=
  (api (lastIdSeq api n)).total = (accSeq api (n + 1)).length

instance (api : String → Page) (n : Nat) : Decidable (stopAt api n) :=
  inferInstanceAs (Decidable (_ = _))

/-- Embeds the `while True` loop of `get_offer_ids` (seller.py lines
72-78) with explicit fuel and a call counter: fetch the page for the
current `last_id`, extend `product_list`, break when the reported total
equals the accumulated length, else continue with the page `last_id`.
`none` means the loop did not break within `fuel` iterations. -/
def get_offer_ids_loop (api : String → Page) :
    Nat → String → List Product → Nat → Option (List Product × Nat)
  | 0, _, _, _ => none
  | fuel + 1, last_id, product_list, calls =>
    let some_prod := api last_id
    let product_list2 := product_list ++ some_prod.items
    if some_prod.total = product_list2.length then
      some (product_list2, calls + 1)
    else
      get_offer_ids_loop api fuel some_prod.last_id product_list2 (calls + 1)

/-- Embeds `get_offer_ids` (seller.py lines 52-82): run the loop from the
empty `last_id` and the empty accumulator, then map every accumulated
product to its `offer_id` (lines 79-82). The result also carries the
number of API calls made. -/
def get_offer_ids (api : String → Page) (fuel : Nat) :
    Option (List String × Nat) :=
  match get_offer_ids_loop api fuel ("") [] 0 with
  | none => none
  | some (product_list, calls) =>
    some (product_list.map Product.offer_id, calls)

/-- Embeds `env.str(name)` of environs: return the variable or raise. -/
def env_str (env : String → Option String) (name : String) :
    Except PyExc String :=
  match env name with
  | some v => Except.ok v
  | none => Except.error PyExc.envError

/-- Embeds `main` (seller.py lines 347-367). The two environment reads
happen before the `try` block; the body of the `try` block (lines
352-361) is abstracted as `body`, a computation on the two credentials
that either finishes or raises one exception; all three `except` branches
print and swallow. -/
def seller_main (env : String → Option String)
    (body : String → String → Except PyExc Unit) : Except PyExc Unit :=
  match env_str env ("SELLER_TOKEN") with
  | Except.error e => Except.error e
  | Except.ok seller_token =>
    match env_str env ("CLIENT_ID") with
    | Except.error e => Except.error e
    | Except.ok client_id =>
      match body client_id seller_token with
      | Except.ok _ => Except.ok ()
      | Except.error PyExc.readTimeout => Except.ok ()
      | Except.error PyExc.connectionError => Except.ok ()
      | Except.error _ => Except.ok ()

/-- The two-page mock API of the §8 test property: page one holds two
items and page two holds three, both reporting total 5. -/
def mockApi : String → Page := fun last_id =>
  if last_id = "" then ⟨[⟨"o1"⟩, ⟨"o2"⟩], 5, "p1"⟩
  else if last_id = "p1" then ⟨[⟨"o3"⟩, ⟨"o4"⟩, ⟨"o5"⟩], 5, "p2"⟩
  else ⟨[], 5, last_id⟩

/-- A mock API on which the accumulated count overshoots the reported
total: every page holds two items and reports total 5, so the count runs
2, 4, 6, ... and never equals 5. -/
def overshootApi : String → Page := fun last_id =>
  ⟨[⟨"x"⟩, ⟨"y"⟩], 5, last_id⟩

/-- The supplier rows of the §8 test property for `createStocks`. -/
def exampleRows : List WatchRow :=
  [⟨"123", ">10", ""⟩, ⟨"456", "1", ""⟩]

/-- The offer ids of the §8 test property for `createStocks`. -/
def exampleIds : List String := ["123", "456", "789"]

/-- The first §8 example input of `convertPrice`; `Char.ofNat 39` is the
U+0027 apostrophe used as a thousands separator in the feed. -/
def priceExample1 : String := String.mk
  [('5'), Char.ofNat 39, ('9'), ('9'), ('0'), ('.'), ('0'), ('0'), (' '),
   ('р'), ('у'), ('б'), ('.')]

/- ------------------------------------------------------------------ -/
/- Helper lemmas                                                       -/
/- ------------------------------------------------------------------ -/

lemma pySplit_ne_nil (sep : Char) (l : List Char) : pySplit sep l ≠ [] := by
  cases l with
  | nil => simp [pySplit]
  | cons c cs =>
    rw [pySplit]
    cases h : pySplit sep cs with
    | nil => simp
    | cons hd tl => by_cases hc : c = sep <;> simp [hc]

lemma pySplit_headD (sep : Char) (l : List Char) :
    (pySplit sep l).headD [] = l.takeWhile (fun c => c ≠ sep) := by
  induction l with
  | nil => rfl
  | cons c cs ih =>
    rw [pySplit]
    cases h : pySplit sep cs with
    | nil => exact absurd h (pySplit_ne_nil sep cs)
    | cons hd tl =>
      by_cases hc : c = sep
      · simp [hc, List.takeWhile_cons]
      · simp only [if_neg hc, List.headD_cons, List.takeWhile_cons,
          decide_eq_true_eq]
        rw [if_pos hc, ← ih, h, List.headD_cons]

/-- Claim C4: `price_conversion` returns the piece of the input before the
first dot with every non-digit character removed; on the two §8 examples
it returns "5990" and "7500", and a malformed input yields the empty
string without an error. -/
theorem price_conversion_spec :
    (∀ price : String, price_conversion price =
        String.mk ((price.toList.takeWhile (fun c => c ≠ ('.'))).filter
          Char.isDigit))
    ∧ price_conversion priceExample1 = "5990"
    ∧ price_conversion ("7500.50 руб.") = "7500"
    ∧ price_conversion ("руб") = "" := by
  refine ⟨fun price => ?_, by decide, by decide, by decide⟩
  rw [price_conversion, pySplit_headD]

lemma stock_of_cases (w : WatchRow) (s : Int) (h : stock_of w = some s) :
    (w.quantity = ">10" ∧ s = 100) ∨ (w.quantity = "1" ∧ s = 0) ∨
    (w.quantity ≠ ">10" ∧ w.quantity ≠ "1" ∧ pyInt w.quantity = some s) := by
  rw [stock_of] at h
  by_cases h1 : w.quantity = ">10"
  · rw [if_pos h1] at h
    exact Or.inl ⟨h1, (Option.some.inj h).symm⟩
  · rw [if_neg h1] at h
    by_cases h2 : w.quantity = "1"
    · rw [if_pos h2] at h
      exact Or.inr (Or.inl ⟨h2, (Option.some.inj h).symm⟩)
    · rw [if_neg h2] at h
      exact Or.inr (Or.inr ⟨h1, h2, h⟩)

lemma stock_of_isSome (w : WatchRow)
    (h : w.quantity = ">10" ∨ w.quantity = "1" ∨ (pyInt w.quantity).isSome) :
    (stock_of w).isSome := by
  rw [stock_of]
  by_cases h1 : w.quantity = ">10"
  · simp [h1]
  · by_cases h2 : w.quantity = "1"
    · simp [h1, h2]
    · rw [if_neg h1, if_neg h2]
      rcases h with h | h | h
      · exact absurd h h1
      · exact absurd h h2
      · exact h

lemma create_stocks_loop_remaining :
    ∀ (rows : List WatchRow) (ids : List String) (st : List StockUpdate)
      (rem : List String),
      create_stocks_loop rows ids = some (st, rem) →
      rem = (st.map StockUpdate.offer_id).foldl (fun l c => l.erase c) ids := by
  intro rows
  induction rows with
  | nil =>
    intro ids st rem h
    simp only [create_stocks_loop, Option.some.injEq, Prod.mk.injEq] at h
    obtain ⟨h1, h2⟩ := h
    subst h1; subst h2; rfl
  | cons w ws ih =>
    intro ids st rem h
    simp only [create_stocks_loop] at h
    by_cases hmem : w.code ∈ ids
    · rw [if_pos hmem] at h
      cases hso : stock_of w with
      | none => rw [hso] at h; simp at h
      | some stock =>
        rw [hso] at h
        cases hrec : create_stocks_loop ws (ids.erase w.code) with
        | none => rw [hrec] at h; simp at h
        | some pr =>
          obtain ⟨st2, rem2⟩ := pr
          rw [hrec] at h
          simp only [Option.some.injEq, Prod.mk.injEq] at h
          obtain ⟨h1, h2⟩ := h
          subst h1; subst h2
          simpa using ih (ids.erase w.code) st2 rem2 hrec
    · rw [if_neg hmem] at h
      exact ih ids st rem h

lemma create_stocks_loop_entries :
    ∀ (rows : List WatchRow) (ids : List String) (st : List StockUpdate)
      (rem : List String),
      create_stocks_loop rows ids = some (st, rem) →
      ∀ e ∈ st, ∃ w, w ∈ rows ∧ w.code = e.offer_id ∧
        stock_of w = some e.stock ∧ e.offer_id ∈ ids := by
  intro rows
  induction rows with
  | nil =>
    intro ids st rem h
    simp only [create_stocks_loop, Option.some.injEq, Prod.mk.injEq] at h
    obtain ⟨h1, _⟩ := h
    subst h1; intro e he; exact absurd he (List.not_mem_nil e)
  | cons w ws ih =>
    intro ids st rem h
    simp only [create_stocks_loop] at h
    by_cases hmem : w.code ∈ ids
    · rw [if_pos hmem] at h
      cases hso : stock_of w with
      | none => rw [hso] at h; simp at h
      | some stock =>
        rw [hso] at h
        cases hrec : create_stocks_loop ws (ids.erase w.code) with
        | none => rw [hrec] at h; simp at h
        | some pr =>
          obtain ⟨st2, rem2⟩ := pr
          rw [hrec] at h
          simp only [Option.some.injEq, Prod.mk.injEq] at h
          obtain ⟨h1, h2⟩ := h
          subst h1; subst h2
          intro e he
          rcases List.mem_cons.mp he with rfl | he2
          · exact ⟨w, List.mem_cons_self w ws, rfl, hso, hmem⟩
          · obtain ⟨w2, hw2, hc2, hs2, hm2⟩ :=
              ih (ids.erase w.code) st2 rem2 hrec e he2
            exact ⟨w2, List.mem_cons_of_mem w hw2, hc2, hs2,
              List.mem_of_mem_erase hm2⟩
    · rw [if_neg hmem] at h
      intro e he
      obtain ⟨w2, hw2, hc2, hs2, hm2⟩ := ih ids st rem h e he
      exact ⟨w2, List.mem_cons_of_mem w hw2, hc2, hs2, hm2⟩

lemma create_stocks_loop_perm :
    ∀ (rows : List WatchRow) (ids : List String) (st : List StockUpdate)
      (rem : List String),
      create_stocks_loop rows ids = some (st, rem) →
      (st.map StockUpdate.offer_id ++ rem).Perm ids := by
  intro rows
  induction rows with
  | nil =>
    intro ids st rem h
    simp only [create_stocks_loop, Option.some.injEq, Prod.mk.injEq] at h
    obtain ⟨h1, h2⟩ := h
    subst h1; subst h2; simp
  | cons w ws ih =>
    intro ids st rem h
    simp only [create_stocks_loop] at h
    by_cases hmem : w.code ∈ ids
    · rw [if_pos hmem] at h
      cases hso : stock_of w with
      | none => rw [hso] at h; simp at h
      | some stock =>
        rw [hso] at h
        cases hrec : create_stocks_loop ws (ids.erase w.code) with
        | none => rw [hrec] at h; simp at h
        | some pr =>
          obtain ⟨st2, rem2⟩ := pr
          rw [hrec] at h
          simp only [Option.some.injEq, Prod.mk.injEq] at h
          obtain ⟨h1, h2⟩ := h
          subst h1; subst h2
          have hperm := ih (ids.erase w.code) st2 rem2 hrec
          simpa using (hperm.cons w.code).trans
            (List.perm_cons_erase hmem).symm
    · rw [if_neg hmem] at h
      exact ih ids st rem h

lemma create_stocks_loop_total :
    ∀ (rows : List WatchRow) (ids : List String),
      (∀ w ∈ rows, w.code ∈ ids → (stock_of w).isSome) →
      (create_stocks_loop rows ids).isSome := by
  intro rows
  induction rows with
  | nil => intro ids _; simp [create_stocks_loop]
  | cons w ws ih =>
    intro ids h
    simp only [create_stocks_loop]
    by_cases hmem : w.code ∈ ids
    · rw [if_pos hmem]
      cases hso : stock_of w with
      | none =>
        have := h w (List.mem_cons_self w ws) hmem
        rw [hso] at this; simp at this
      | some stock =>
        have hrec := ih (ids.erase w.code)
          (fun w2 hw2 hm2 => h w2 (List.mem_cons_of_mem w hw2)
            (List.mem_of_mem_erase hm2))
        cases hr : create_stocks_loop ws (ids.erase w.code) with
        | none => rw [hr] at hrec; simp at hrec
        | some pr => obtain ⟨a, b⟩ := pr; simp
    · rw [if_neg hmem]
      exact ih ids (fun w2 hw2 hm2 => h w2 (List.mem_cons_of_mem w hw2) hm2)

lemma create_prices_snd (rows : List WatchRow) :
    ∀ ids : List String, (create_prices rows ids).2 = ids := by
  induction rows with
  | nil => intro ids; rfl
  | cons w ws ih =>
    intro ids
    simp only [create_prices]
    by_cases hmem : w.code ∈ ids
    · rw [if_pos hmem]
      cases hrec : create_prices ws ids with
      | mk prices ids2 =>
        have h2 := ih ids
        rw [hrec] at h2
        simpa using h2
    · rw [if_neg hmem]
      exact ih ids

lemma create_prices_fst (rows : List WatchRow) :
    ∀ ids : List String,
      (create_prices rows ids).1 = create_prices_from_spec rows ids := by
  induction rows with
  | nil => intro ids; rfl
  | cons w ws ih =>
    intro ids
    by_cases hmem : w.code ∈ ids
    · have hspec : create_prices_from_spec (w :: ws) ids =
          ⟨"UNKNOWN", "RUB", w.code, "0", price_conversion w.price⟩ ::
            create_prices_from_spec ws ids := by
        simp [create_prices_from_spec, List.filter_cons, hmem]
      rw [hspec]
      simp only [create_prices]
      rw [if_pos hmem]
      cases hrec : create_prices ws ids with
      | mk prices ids2 =>
        have h2 := ih ids
        rw [hrec] at h2
        simpa using h2
    · have hspec : create_prices_from_spec (w :: ws) ids =
          create_prices_from_spec ws ids := by
        simp [create_prices_from_spec, List.filter_cons, hmem]
      rw [hspec]
      simp only [create_prices]
      rw [if_neg hmem]
      exact ih ids

/-- Claim C1 (amended): when the input offer-id list has no duplicates and
`create_stocks` returns, the `offer_id` values of the output are a
permutation of the input offer ids: no duplicate entries, no omissions,
and rows whose code is not an input offer id contribute nothing. -/
theorem create_stocks_coverage :
    ∀ (rows : List WatchRow) (ids : List String) (st : List StockUpdate)
      (rem : List String),
      ids.Nodup → create_stocks rows ids = some (st, rem) →
      (st.map StockUpdate.offer_id).Perm ids ∧
      (st.map StockUpdate.offer_id).Nodup ∧
      (∀ x, x ∈ st.map StockUpdate.offer_id ↔ x ∈ ids) := by
  intro rows ids st rem hnd h
  cases hl : create_stocks_loop rows ids with
  | none => rw [create_stocks, hl] at h; simp at h
  | some pr =>
    obtain ⟨st2, rem2⟩ := pr
    rw [create_stocks, hl] at h
    simp only [Option.some.injEq, Prod.mk.injEq] at h
    obtain ⟨h1, h2⟩ := h
    subst h2
    subst h1
    have hperm0 := create_stocks_loop_perm rows ids st2 rem2 hl
    have hid : ∀ l : List String, ((l.map fun offer_id =>
        (⟨offer_id, 0⟩ : StockUpdate)).map StockUpdate.offer_id) = l := by
      intro l
      induction l with
      | nil => rfl
      | cons a l ih => simp [ih]
    have hmap : ((st2 ++ rem2.map fun offer_id =>
          (⟨offer_id, 0⟩ : StockUpdate)).map StockUpdate.offer_id)
        = st2.map StockUpdate.offer_id ++ rem2 := by
      simp [List.map_append, hid]
    rw [hmap]
    exact ⟨hperm0, hperm0.nodup_iff.mpr hnd, fun x => hperm0.mem_iff⟩

/-- Counterexample to claim C1 as stated: with a duplicated input offer
id, the output of `create_stocks` holds two entries with the same
`offer_id`, so the no-duplicates part of the claim fails. -/
theorem create_stocks_coverage_cex :
    create_stocks ([] : List WatchRow) ["a", "a"] =
      some ([⟨"a", 0⟩, ⟨"a", 0⟩], ["a", "a"]) ∧
    ¬ (([⟨"a", 0⟩, ⟨"a", 0⟩] : List StockUpdate).map
        StockUpdate.offer_id).Nodup := by
  exact ⟨by decide, by decide⟩

theorem create_stocks_coverage_witness :
    (([⟨"123", 100⟩, ⟨"456", 0⟩, ⟨"789", 0⟩] : List StockUpdate).map
      StockUpdate.offer_id).Perm exampleIds :=
  (create_stocks_coverage exampleRows exampleIds
    [⟨"123", 100⟩, ⟨"456", 0⟩, ⟨"789", 0⟩] ["789"] (by decide) (by decide)).1

/-- Claim C3: every entry of the `create_stocks` output either comes from
a supplier row with the same code and a stock derived by the rule
(">10" gives 100, "1" gives 0, otherwise the parsed integer), or is a
zero-stock backfill entry for a leftover offer id; on the §8 example the
output is exactly the three expected entries. -/
theorem create_stocks_stock_rule :
    (∀ (rows : List WatchRow) (ids : List String) (st : List StockUpdate)
        (rem : List String),
        create_stocks rows ids = some (st, rem) →
        ∀ e ∈ st,
          (∃ w, w ∈ rows ∧ w.code = e.offer_id ∧
            ((w.quantity = ">10" ∧ e.stock = 100) ∨
             (w.quantity = "1" ∧ e.stock = 0) ∨
             (w.quantity ≠ ">10" ∧ w.quantity ≠ "1" ∧
               pyInt w.quantity = some e.stock))) ∨
          (e.stock = 0 ∧ e.offer_id ∈ rem))
    ∧ create_stocks exampleRows exampleIds =
        some ([⟨"123", 100⟩, ⟨"456", 0⟩, ⟨"789", 0⟩], ["789"]) := by
  constructor
  · intro rows ids st rem h e he
    cases hl : create_stocks_loop rows ids with
    | none => rw [create_stocks, hl] at h; simp at h
    | some pr =>
      obtain ⟨st2, rem2⟩ := pr
      rw [create_stocks, hl] at h
      simp only [Option.some.injEq, Prod.mk.injEq] at h
      obtain ⟨h1, h2⟩ := h
      subst h2
      subst h1
      rcases List.mem_append.mp he with he2 | he3
      · obtain ⟨w2, hw2, hc2, hs2, _⟩ :=
          create_stocks_loop_entries rows ids st2 rem2 hl e he2
        exact Or.inl ⟨w2, hw2, hc2, stock_of_cases w2 e.stock hs2⟩
      · obtain ⟨i, hi, hei⟩ := List.mem_map.mp he3
        refine Or.inr ?_
        rw [← hei]
        exact ⟨rfl, hi⟩
  · decide

theorem create_stocks_stock_rule_witness :
    (∃ w, w ∈ exampleRows ∧ w.code = "123" ∧
      ((w.quantity = ">10" ∧ (100 : Int) = 100) ∨
       (w.quantity = "1" ∧ (100 : Int) = 0) ∨
       (w.quantity ≠ ">10" ∧ w.quantity ≠ "1" ∧
         pyInt w.quantity = some 100))) ∨
    ((100 : Int) = 0 ∧ "123" ∈ (["789"] : List String)) :=
  create_stocks_stock_rule.1 exampleRows exampleIds
    [⟨"123", 100⟩, ⟨"456", 0⟩, ⟨"789", 0⟩] ["789"] (by decide)
    ⟨"123", 100⟩ (by decide)

/-- Claim C6: a successful `create_stocks` leaves the `offer_ids` state
equal to the input minus exactly the codes its first loop consumed (each
consumed code came from a matched row), while `create_prices` returns the
`offer_ids` state unchanged and emits entries only for codes of supplier
rows. -/
theorem create_stocks_mutates_create_prices_preserves :
    (∀ (rows : List WatchRow) (ids : List String) (st : List StockUpdate)
        (rem : List String),
        create_stocks rows ids = some (st, rem) →
        ∃ stocks1, create_stocks_loop rows ids = some (stocks1, rem) ∧
          rem = (stocks1.map StockUpdate.offer_id).foldl
            (fun l c => l.erase c) ids ∧
          ∀ e ∈ stocks1, ∃ w, w ∈ rows ∧ w.code = e.offer_id ∧
            e.offer_id ∈ ids)
    ∧ (∀ (rows : List WatchRow) (ids : List String),
        (create_prices rows ids).2 = ids)
    ∧ (∀ (rows : List WatchRow) (ids : List String),
        ∀ p ∈ (create_prices rows ids).1,
          ∃ w, w ∈ rows ∧ w.code = p.offer_id) := by
  refine ⟨?_, fun rows ids => create_prices_snd rows ids, ?_⟩
  · intro rows ids st rem h
    cases hl : create_stocks_loop rows ids with
    | none => rw [create_stocks, hl] at h; simp at h
    | some pr =>
      obtain ⟨st2, rem2⟩ := pr
      rw [create_stocks, hl] at h
      simp only [Option.some.injEq, Prod.mk.injEq] at h
      obtain ⟨h1, h2⟩ := h
      subst h2
      subst h1
      refine ⟨st2, rfl, create_stocks_loop_remaining rows ids st2 rem2 hl,
        fun e he => ?_⟩
      obtain ⟨w2, hw2, hc2, _, hm2⟩ :=
        create_stocks_loop_entries rows ids st2 rem2 hl e he
      exact ⟨w2, hw2, hc2, hm2⟩
  · intro rows ids p hp
    rw [create_prices_fst rows ids] at hp
    obtain ⟨w2, hw2, hweq⟩ := List.mem_map.mp hp
    obtain ⟨hw2mem, _⟩ := List.mem_filter.mp hw2
    exact ⟨w2, hw2mem, by rw [← hweq]⟩

theorem create_stocks_mutates_witness :
    ∃ stocks1,
      create_stocks_loop exampleRows exampleIds = some (stocks1, ["789"]) ∧
      ["789"] = (stocks1.map StockUpdate.offer_id).foldl
        (fun l c => l.erase c) exampleIds ∧
      ∀ e ∈ stocks1, ∃ w, w ∈ exampleRows ∧ w.code = e.offer_id ∧
        e.offer_id ∈ exampleIds :=
  create_stocks_mutates_create_prices_preserves.1 exampleRows exampleIds
    [⟨"123", 100⟩, ⟨"456", 0⟩, ⟨"789", 0⟩] ["789"] (by decide)

/-- Claim C7: `create_prices` emits exactly one price update per supplier
row whose code appears in the offer ids, with the constant fields of the
source and the converted price, and emits nothing for the other rows; on
the §8 example with ids containing "123" but not "456" only the "123"
entry appears. -/
theorem create_prices_refines_spec :
    (∀ (rows : List WatchRow) (ids : List String),
        (create_prices rows ids).1 = create_prices_from_spec rows ids)
    ∧ (create_prices exampleRows ["123", "789"]).1 =
        [⟨"UNKNOWN", "RUB", "123", "0", ""⟩] := by
  exact ⟨fun rows ids => create_prices_fst rows ids, by decide⟩

/-- Claim C10: `create_stocks` returns a value whenever every row whose
code is an input offer id has quantity ">10", "1" or an integer-parseable
string; a matched row with quantity ">5" or the empty string makes the
integer parse fail and `create_stocks` with it returns no output. -/
theorem create_stocks_parse_precondition :
    (∀ (rows : List WatchRow) (ids : List String),
        (∀ w ∈ rows, w.code ∈ ids →
          w.quantity = ">10" ∨ w.quantity = "1" ∨
            (pyInt w.quantity).isSome) →
        (create_stocks rows ids).isSome)
    ∧ create_stocks [⟨"123", ">5", ""⟩] ["123"] = none
    ∧ create_stocks [⟨"123", "", ""⟩] ["123"] = none := by
  refine ⟨?_, by decide, by decide⟩
  intro rows ids h
  have hl := create_stocks_loop_total rows ids
    (fun w hw hm => stock_of_isSome w (h w hw hm))
  cases hr : create_stocks_loop rows ids with
  | none => rw [hr] at hl; simp at hl
  | some pr =>
    obtain ⟨a, b⟩ := pr
    simp [create_stocks, hr]

theorem create_stocks_parse_precondition_witness :
    (create_stocks exampleRows exampleIds).isSome :=
  create_stocks_parse_precondition.1 exampleRows exampleIds (by decide)

lemma divide_go_nil {α : Type} (n : Nat) (hn : 0 < n) :
    divide_go n hn ([] : List α) = [] := by
  rw [divide_go]

lemma divide_go_cons {α : Type} (n : Nat) (hn : 0 < n) (x : α) (xs : List α) :
    divide_go n hn (x :: xs) =
      ((x :: xs).take n) :: divide_go n hn ((x :: xs).drop n) := by
  rw [divide_go]

lemma divide_go_join {α : Type} (n : Nat) (hn : 0 < n) :
    ∀ (fuel : Nat) (l : List α), l.length ≤ fuel →
      (divide_go n hn l).flatten = l := by
  intro fuel
  induction fuel with
  | zero =>
    intro l hl
    have : l = [] := List.length_eq_zero.mp (Nat.le_zero.mp hl)
    subst this
    simp [divide_go_nil]
  | succ fuel ih =>
    intro l hl
    cases l with
    | nil => simp [divide_go_nil]
    | cons x xs =>
      rw [divide_go_cons, List.flatten_cons,
        ih ((x :: xs).drop n) (by simp [List.length_drop] at hl ⊢; omega),
        List.take_append_drop]

lemma divide_go_chunk_bounds {α : Type} (n : Nat) (hn : 0 < n) :
    ∀ (fuel : Nat) (l : List α), l.length ≤ fuel →
      ∀ c ∈ divide_go n hn l, c ≠ [] ∧ c.length ≤ n := by
  intro fuel
  induction fuel with
  | zero =>
    intro l hl
    have : l = [] := List.length_eq_zero.mp (Nat.le_zero.mp hl)
    subst this
    simp [divide_go_nil]
  | succ fuel ih =>
    intro l hl
    cases l with
    | nil => simp [divide_go_nil]
    | cons x xs =>
      rw [divide_go_cons]
      intro c hc
      rcases List.mem_cons.mp hc with rfl | hc2
      · constructor
        · intro hnil
          have hlen := congrArg List.length hnil
          rw [List.length_take] at hlen
          simp only [List.length_cons, List.length_nil] at hlen
          omega
        · rw [List.length_take]
          omega
      · exact ih ((x :: xs).drop n)
          (by simp [List.length_drop] at hl ⊢; omega) c hc2

lemma divide_go_dropLast_full {α : Type} (n : Nat) (hn : 0 < n) :
    ∀ (fuel : Nat) (l : List α), l.length ≤ fuel →
      ∀ c ∈ (divide_go n hn l).dropLast, c.length = n := by
  intro fuel
  induction fuel with
  | zero =>
    intro l hl
    have : l = [] := List.length_eq_zero.mp (Nat.le_zero.mp hl)
    subst this
    simp [divide_go_nil]
  | succ fuel ih =>
    intro l hl
    cases l with
    | nil => simp [divide_go_nil]
    | cons x xs =>
      rw [divide_go_cons]
      cases hrec : divide_go n hn ((x :: xs).drop n) with
      | nil => simp
      | cons r rs =>
        rw [List.dropLast_cons_of_ne_nil (List.cons_ne_nil r rs)]
        intro c hc
        rcases List.mem_cons.mp hc with rfl | hc2
        · have hdrop : (x :: xs).drop n ≠ [] := by
            intro hd
            rw [hd, divide_go_nil] at hrec
            exact List.cons_ne_nil r rs hrec.symm
          have hlt : n < (x :: xs).length := by
            by_contra hle
            push_neg at hle
            exact hdrop (List.drop_eq_nil_of_le hle)
          simp only [List.length_take, List.length_cons] at hlt ⊢
          omega
        · have := ih ((x :: xs).drop n)
            (by simp [List.length_drop] at hl ⊢; omega) c
          rw [hrec] at this
          exact this hc2

/-- Claim C5: for a positive chunk size, `divide` yields the contiguous
slices of the list in order, each nonempty and of length at most the
chunk size, all but the last of length exactly the chunk size, and their
concatenation is the input list; the two §8 examples hold. -/
theorem divide_spec :
    (∀ (α : Type) (lst : List α) (n : Nat) (chunks : List (List α)),
        divide lst n = some chunks →
        chunks.flatten = lst ∧
        (∀ c ∈ chunks, c ≠ [] ∧ c.length ≤ n) ∧
        (∀ c ∈ chunks.dropLast, c.length = n))
    ∧ (∀ (α : Type) (lst : List α) (n : Nat), 1 ≤ n → (divide lst n).isSome)
    ∧ divide [1, 2, 3, 4] 2 = some [[1, 2], [3, 4]]
    ∧ divide [1, 2, 3] 2 = some [[1, 2], [3]] := by
  refine ⟨?_, ?_, by simp [divide, divide_go_cons, divide_go_nil],
    by simp [divide, divide_go_cons, divide_go_nil]⟩
  · intro α lst n chunks h
    rw [divide] at h
    by_cases hn : 0 < n
    · rw [dif_pos hn] at h
      obtain rfl := Option.some.inj h
      exact ⟨divide_go_join n hn lst.length lst le_rfl,
        divide_go_chunk_bounds n hn lst.length lst le_rfl,
        divide_go_dropLast_full n hn lst.length lst le_rfl⟩
    · rw [dif_neg hn] at h
      exact absurd h (Option.noConfusion)
  · intro α lst n hn
    have hn0 : 0 < n := hn
    rw [divide, dif_pos hn0]
    rfl

theorem divide_spec_witness :
    ([[1, 2], [3]] : List (List Nat)).flatten = [1, 2, 3] :=
  (divide_spec.1 Nat [1, 2, 3] 2 [[1, 2], [3]]
    (by simp [divide, divide_go_cons, divide_go_nil])).1

lemma lastIdSeq_succ (api : String → Page) (n : Nat) :
    lastIdSeq api (n + 1) = (api (lastIdSeq api n)).last_id := by
  rw [lastIdSeq]

lemma accSeq_succ (api : String → Page) (n : Nat) :
    accSeq api (n + 1) = accSeq api n ++ (api (lastIdSeq api n)).items := by
  rw [accSeq]

lemma get_offer_ids_loop_sound (api : String → Page) :
    ∀ (fuel k : Nat) (res : List Product × Nat),
      get_offer_ids_loop api fuel (lastIdSeq api k) (accSeq api k) k =
        some res →
      ∃ n, k ≤ n ∧ n + 1 ≤ k + fuel ∧ res = (accSeq api (n + 1), n + 1) ∧
        stopAt api n ∧ ∀ m, k ≤ m → m < n → ¬ stopAt api m := by
  intro fuel
  induction fuel with
  | zero => intro k res h; simp [get_offer_ids_loop] at h
  | succ fuel ih =>
    intro k res h
    simp only [get_offer_ids_loop] at h
    by_cases hstop : stopAt api k
    · rw [if_pos (by rw [← accSeq_succ]; exact hstop)] at h
      refine ⟨k, le_rfl, by omega, ?_, hstop,
        fun m h1 h2 => absurd h1 (by omega)⟩
      rw [← Option.some.inj h, accSeq_succ]
    · rw [if_neg (by rw [← accSeq_succ]; exact fun hh => hstop hh)] at h
      have h2 : get_offer_ids_loop api fuel (lastIdSeq api (k + 1))
          (accSeq api (k + 1)) (k + 1) = some res := by
        rw [lastIdSeq_succ, accSeq_succ]
        exact h
      obtain ⟨n, hn1, hn2, hn3, hn4, hn5⟩ := ih (k + 1) res h2
      refine ⟨n, by omega, by omega, hn3, hn4, fun m hm1 hm2 => ?_⟩
      rcases Nat.eq_or_lt_of_le hm1 with heq | hlt
      · rw [← heq]
        exact hstop
      · exact hn5 m hlt hm2

lemma get_offer_ids_loop_complete (api : String → Page) :
    ∀ (fuel k n : Nat), k ≤ n → n + 1 ≤ k + fuel → stopAt api n →
      (∀ m, k ≤ m → m < n → ¬ stopAt api m) →
      get_offer_ids_loop api fuel (lastIdSeq api k) (accSeq api k) k =
        some (accSeq api (n + 1), n + 1) := by
  intro fuel
  induction fuel with
  | zero => intro k n h1 h2 _ _; omega
  | succ fuel ih =>
    intro k n h1 h2 hstop hmin
    simp only [get_offer_ids_loop]
    rcases Nat.eq_or_lt_of_le h1 with heq | hlt
    · subst heq
      rw [if_pos (by rw [← accSeq_succ]; exact hstop)]
      rw [accSeq_succ]
    · have hknot : ¬ stopAt api k := hmin k le_rfl hlt
      rw [if_neg (by rw [← accSeq_succ]; exact fun hh => hknot hh)]
      have hrec := ih (k + 1) n hlt (by omega) hstop
        (fun m hm1 hm2 => hmin m (by omega) hm2)
      rw [← accSeq_succ, ← lastIdSeq_succ]
      exact hrec

lemma overshoot_loop_none :
    ∀ (fuel : Nat) (last_id : String) (pl : List Product) (calls : Nat),
      pl.length % 2 = 0 →
      get_offer_ids_loop overshootApi fuel last_id pl calls = none := by
  intro fuel
  induction fuel with
  | zero => intro last_id pl calls _; simp [get_offer_ids_loop]
  | succ fuel ih =>
    intro last_id pl calls hev
    simp only [get_offer_ids_loop]
    have hne : ¬ ((overshootApi last_id).total =
        (pl ++ (overshootApi last_id).items).length) := by
      simp [overshootApi]
      omega
    rw [if_neg hne]
    exact ih _ _ _ (by simp [overshootApi]; omega)

/-- Claim C2: `get_offer_ids` terminates exactly when, after some page
fetch, the accumulated item count equals the total reported by that page
(sound and complete characterizations below), returning the `offer_id`
values of the accumulated items in discovery order; on the two-page mock
with counts 2 and 3 and total 5 it makes exactly two calls and returns
the five ids; on a mock whose counts overshoot the total, it never
terminates (every fuel gives `none`). -/
theorem get_offer_ids_spec :
    (∀ (api : String → Page) (fuel : Nat) (ids : List String) (calls : Nat),
        get_offer_ids api fuel = some (ids, calls) →
        0 < calls ∧ calls ≤ fuel ∧
        ids = (accSeq api calls).map Product.offer_id ∧
        stopAt api (calls - 1) ∧
        ∀ m, m + 1 < calls → ¬ stopAt api m)
    ∧ (∀ (api : String → Page) (n fuel : Nat), stopAt api n →
        (∀ m, m < n → ¬ stopAt api m) → n + 1 ≤ fuel →
        get_offer_ids api fuel =
          some ((accSeq api (n + 1)).map Product.offer_id, n + 1))
    ∧ (∀ fuel, 2 ≤ fuel →
        get_offer_ids mockApi fuel =
          some (["o1", "o2", "o3", "o4", "o5"], 2))
    ∧ (∀ fuel, get_offer_ids overshootApi fuel = none) := by
  have complete : ∀ (api : String → Page) (n fuel : Nat), stopAt api n →
      (∀ m, m < n → ¬ stopAt api m) → n + 1 ≤ fuel →
      get_offer_ids api fuel =
        some ((accSeq api (n + 1)).map Product.offer_id, n + 1) := by
    intro api n fuel hstop hmin hfuel
    have hloop := get_offer_ids_loop_complete api fuel 0 n (Nat.zero_le n)
      (by omega) hstop (fun m _ hm2 => hmin m hm2)
    have hloop2 : get_offer_ids_loop api fuel ("") [] 0 =
        some (accSeq api (n + 1), n + 1) := hloop
    simp [get_offer_ids, hloop2]
  refine ⟨?_, complete, ?_, ?_⟩
  · intro api fuel ids calls h
    cases hl : get_offer_ids_loop api fuel ("") [] 0 with
    | none => rw [get_offer_ids, hl] at h; simp at h
    | some res =>
      obtain ⟨pl, c⟩ := res
      rw [get_offer_ids, hl] at h
      simp only [Option.some.injEq, Prod.mk.injEq] at h
      obtain ⟨h1, h2⟩ := h
      have h0 : get_offer_ids_loop api fuel (lastIdSeq api 0)
          (accSeq api 0) 0 = some (pl, c) := hl
      obtain ⟨n, _, hn2, hn3, hn4, hn5⟩ :=
        get_offer_ids_loop_sound api fuel 0 (pl, c) h0
      simp only [Prod.mk.injEq] at hn3
      obtain ⟨hp, hc⟩ := hn3
      subst hp
      subst hc
      subst h2
      subst h1
      refine ⟨by omega, by omega, rfl, by simpa using hn4,
        fun m hm => hn5 m (Nat.zero_le m) (by omega)⟩
  · intro fuel hfuel
    have h1 : ¬ stopAt mockApi 0 := by decide
    have h2 : stopAt mockApi 1 := by decide
    have := complete mockApi 1 fuel h2
      (fun m hm => by
        have hm0 : m = 0 := by omega
        rw [hm0]
        exact h1) hfuel
    rw [this]
    have : (accSeq mockApi 2).map Product.offer_id =
        ["o1", "o2", "o3", "o4", "o5"] := by decide
    rw [this]
  · intro fuel
    have hl := overshoot_loop_none fuel ("") [] 0 (by decide)
    simp [get_offer_ids, hl]

theorem get_offer_ids_spec_witness :
    get_offer_ids mockApi 2 = some (["o1", "o2", "o3", "o4", "o5"], 2) :=
  get_offer_ids_spec.2.2.1 2 (by decide)

/-- Claim C8 (amended): whenever both environment variables are set, every
exception raised inside the try block of `seller_main` is caught by one
of the three handlers and swallowed, so the run finishes cleanly (exit
status 0); the environment reads themselves happen before the try block
and are not covered by the handlers. -/
theorem seller_main_swallows :
    ∀ (env : String → Option String)
      (body : String → String → Except PyExc Unit) (t c : String),
      env ("SELLER_TOKEN") = some t → env ("CLIENT_ID") = some c →
      seller_main env body = Except.ok () := by
  intro env body t c ht hc
  cases hb : body c t with
  | ok v =>
    obtain rfl : v = () := rfl
    simp [seller_main, env_str, ht, hc, hb]
  | error e => cases e <;> simp [seller_main, env_str, ht, hc, hb]

/-- Counterexample to claim C8 as stated: with the environment variables
unset, the error raised by the environment read escapes `seller_main`
uncaught, so the process exit status is not 0. -/
theorem seller_main_env_escape_cex :
    seller_main (fun _ => none) (fun _ _ => Except.ok ()) =
      Except.error PyExc.envError ∧
    seller_main (fun _ => none) (fun _ _ => Except.ok ()) ≠
      Except.ok () := by
  refine ⟨rfl, ?_⟩
  intro h
  simp [seller_main, env_str] at h

theorem seller_main_swallows_witness :
    seller_main (fun _ => some ("tok")) (fun _ _ => Except.error PyExc.other) =
      Except.ok () :=
  seller_main_swallows (fun _ => some ("tok"))
    (fun _ _ => Except.error PyExc.other) "tok" "tok" rfl rfl

/-- Claim C9: each of the three marketplace calls raises on an HTTP
status in the 4xx/5xx range (the error propagates out of the embedded
function) and returns the parsed payload on a successful status, never an
empty default. -/
theorem http_error_propagates :
    ∀ (status : Nat),
      (400 ≤ status → status < 600 →
        (∀ (body : Option Page),
            get_product_list ⟨status, body⟩ =
              Except.error PyExc.httpError) ∧
        (∀ (β : Type) (body : β),
            update_price ⟨status, body⟩ = Except.error PyExc.httpError) ∧
        (∀ (β : Type) (body : β),
            update_stocks ⟨status, body⟩ = Except.error PyExc.httpError)) ∧
      (status < 400 →
        (∀ (body : Option Page),
            get_product_list ⟨status, body⟩ = Except.ok body) ∧
        (∀ (β : Type) (body : β),
            update_price ⟨status, body⟩ = Except.ok body) ∧
        (∀ (β : Type) (body : β),
            update_stocks ⟨status, body⟩ = Except.ok body)) := by
  intro status
  constructor
  · intro h4 h6
    refine ⟨fun body => ?_, fun β body => ?_, fun β body => ?_⟩ <;>
      simp [get_product_list, update_price, update_stocks, raise_for_status,
        h4, h6]
  · intro hlt
    have hno : ¬ (400 ≤ status ∧ status < 600) := by omega
    refine ⟨fun body => ?_, fun β body => ?_, fun β body => ?_⟩ <;>
      simp [get_product_list, update_price, update_stocks, raise_for_status,
        hno]

theorem http_error_propagates_witness :
    update_price (⟨404, (0 : Nat)⟩ : HttpResponse Nat) =
      Except.error PyExc.httpError :=
  ((http_error_propagates 404).1 (by decide) (by decide)).2.1 Nat 0
